import Mathlib

/-!
Verification of the kind-registry browser core (`src/browser/src/App.jsx`):
the schema normalizer (`onMount` loop + sort), the search filter
(`filteredKinds`) and the example-event synthesizer (`generateExampleJson`)
are embedded as pure Lean functions.  JavaScript-specific behaviour is made
explicit:

* `parseInt` may fail; a failed parse (JS `NaN`) is modelled as `none`.
* the falsy-`||` defaulting treats both an absent field and the empty
  string as missing;
* `Math.floor(Date.now() / 1000)` is passed in as an explicit `now`
  parameter, and the stream of `Math.random()` results is passed as a list
  of natural numbers `draws`, one entry per constrained field encountered
  (the drawn index is taken modulo the length of the `either` list, exactly
  the range `Math.floor(Math.random() * len)` produces);
* the raw YAML mapping is modelled as the association list that
  `Object.entries` enumerates.
-/

namespace KindRegistry

/-- JS `String.prototype.toLowerCase`, restricted to the ASCII case mapping
(`Char.toLower`), which covers every string that appears in the program. -/
def jsToLowerCase (s : String) : String := String.mk (s.data.map Char.toLower)

/-- JS `s.startsWith(pre)`. -/
def jsStartsWith (s pre : String) : Bool := pre.data.isPrefixOf s.data

/-- JS `s.includes(sub)`: substring containment. -/
def jsIncludes (s sub : String) : Bool := decide (sub.data <:+: s.data)

/-- JS `v || d` for a string-valued field `v` that may be absent:
`undefined` and `""` are both falsy, so both fall back to `d`. -/
def jsOrString (v : Option String) (d : String) : String :=
  match v with
  | some s => if s = "" then d else s
  | none => d

/-- Value of a digit character in the given radix, if it is a valid digit. -/
def digitVal (radix : Nat) (c : Char) : Option Nat :=
  let v :=
    if '0' ≤ c ∧ c ≤ '9' then some (c.toNat - '0'.toNat)
    else if 'a' ≤ c ∧ c ≤ 'z' then some (c.toNat - 'a'.toNat + 10)
    else if 'A' ≤ c ∧ c ≤ 'Z' then some (c.toNat - 'A'.toNat + 10)
    else none
  match v with
  | some d => if d < radix then some d else none
  | none => none

/-- Accumulate the longest leading run of digits of the given radix. -/
def parseDigitsAux (radix : Nat) : List Char → Nat → Nat
  | [], acc => acc
  | c :: rest, acc =>
    match digitVal radix c with
    | some d => parseDigitsAux radix rest (acc * radix + d)
    | none => acc

/-- Longest leading digit run; `none` when the first character is no digit. -/
def parseLeadingNat (radix : Nat) (cs : List Char) : Option Nat :=
  match cs with
  | [] => none
  | c :: rest =>
    match digitVal radix c with
    | some d => some (parseDigitsAux radix rest d)
    | none => none

/-- JS `parseInt(s)` with no radix argument: skip leading whitespace, an
optional sign, an optional `0x`/`0X` hex marker, then the longest leading
digit run; `none` models the `NaN` result. -/
def jsParseInt (s : String) : Option Int :=
  let cs := s.data.dropWhile Char.isWhitespace
  let signed : Int × List Char :=
    match cs with
    | '-' :: rest => (-1, rest)
    | '+' :: rest => (1, rest)
    | _ => (1, cs)
  match signed.2 with
  | '0' :: x :: rest =>
    if x = 'x' ∨ x = 'X' then
      (parseLeadingNat 16 rest).map (fun n => signed.1 * n)
    else
      some (signed.1 * parseDigitsAux 10 (x :: rest) 0)
  | cs' => (parseLeadingNat 10 cs').map (fun n => signed.1 * n)

/-- JS `number.toString()` on a normalized kind number (`NaN` prints as
`"NaN"`, an integer in its usual decimal form). -/
def numberToString : Option Int → String
  | some i => toString i
  | none => "NaN"

/-- One positional field of a tag chain, linked by `next`; `nil` stands for
an absent `next` reference, so a whole value of this type is one
`FieldSpec` chain. -/
inductive FieldChain where
  | nil : FieldChain
  | field (type : String) (either : Option (List String)) (next : FieldChain) : FieldChain
deriving DecidableEq

/-- One allowed tag shape. `pfx` embeds the source field `prefix`
(a reserved word in Lean). -/
structure TagSpec where
  name : Option String
  pfx : Option String
  next : FieldChain
deriving DecidableEq

/-- The raw value attached to one schema key, with each field possibly
absent (`description`/`content` may also be present but empty, which the
normalizer treats the same way). -/
structure RawValue where
  description : Option String
  content : Option String
  tags : Option (List TagSpec)
deriving DecidableEq

/-- One normalized schema entry, as pushed by the `onMount` loop. -/
structure KindRecord where
  number : Option Int
  description : String
  content : String
  tags : List TagSpec
deriving DecidableEq

/-- The record the `onMount` loop pushes for a non-underscore key. -/
def mkRecord (key : String) (v : RawValue) : KindRecord :=
  { number := jsParseInt key
  , description := jsOrString v.description "No description"
  , content := jsOrString v.content "unknown"
  , tags := v.tags.getD [] }

/-- The `onMount` loop over `Object.entries(data)`: keys starting with an
underscore are skipped with `continue`, every other entry is pushed. -/
def buildKindsList : List (String × RawValue) → List KindRecord
  | [] => []
  | (k, v) :: rest =>
    if jsStartsWith k "_" then buildKindsList rest
    else mkRecord k v :: buildKindsList rest

/-- The sort comparator `(a, b) => a.number - b.number`, rendered as the
Boolean relation "`a` may stay before `b`".  When either number is `NaN`
the subtraction yields `NaN` and ECMAScript leaves the resulting order
implementation-defined; this model resolves that freedom by letting `NaN`
records sort first, which keeps the relation transitive and total. -/
def recLe (a b : KindRecord) : Bool :=
  match a.number, b.number with
  | some x, some y => decide (x ≤ y)
  | none, _ => true
  | some _, none => false

/-- `kindsList.sort((a, b) => a.number - b.number)` after the `onMount`
loop: a stable sort by `recLe`. -/
def normalize (raw : List (String × RawValue)) : List KindRecord :=
  (buildKindsList raw).mergeSort recLe

/-- `tagDef.name || tagDef.prefix`, empty result meaning a falsy
discriminator (both fields absent or empty). -/
def tagName (t : TagSpec) : String :=
  jsOrString t.name (t.pfx.getD "")

/-- `kind.tags.map(t => t.name).join('')` as used by the search filter: an
absent `name` contributes the empty string, `prefix` is not consulted. -/
def tagNamesJoined (tags : List TagSpec) : String :=
  String.join (tags.map (fun t => t.name.getD ""))

/-- The filter predicate of `filteredKinds` for an (already lower-cased)
search term. -/
def kindMatches (term : String) (k : KindRecord) : Bool :=
  jsIncludes (numberToString k.number) term ||
  jsIncludes (jsToLowerCase k.description) term ||
  jsIncludes (tagNamesJoined k.tags) term

/-- `filteredKinds`: lower-case the search term, return the whole list when
it is empty (falsy), otherwise filter. -/
def filteredKinds (kinds : List KindRecord) (searchTerm : String) : List KindRecord :=
  let term := jsToLowerCase searchTerm
  if term = "" then kinds
  else kinds.filter (kindMatches term)

/-- Minimal JSON value: an object whose field values are strings — exactly
the shape `JSON.stringify({ json: "text" })` serializes. -/
structure JsonObj where
  fields : List (String × String)
deriving DecidableEq

/-- `JSON.stringify` on such an object (none of the strings involved need
escaping). -/
def JsonObj.stringify (o : JsonObj) : String :=
  "\x7b" ++
    String.intercalate ","
      (o.fields.map (fun kv => "\"" ++ kv.1 ++ "\":\"" ++ kv.2 ++ "\"")) ++
  "\x7d"

/-- Parse a JSON string literal without escapes: consume `"..."`, return the
body and the remaining characters. -/
def parseStringLitAux : List Char → List Char → Option (String × List Char)
  | [], _ => none
  | c :: rest, acc =>
    if c = '"' then some (String.mk acc.reverse, rest)
    else if c = '\\' then none
    else parseStringLitAux rest (c :: acc)

/-- Entry point of the string-literal parser: expects an opening quote. -/
def parseStringLit : List Char → Option (String × List Char)
  | '"' :: rest => parseStringLitAux rest []
  | _ => none

/-- Parse `"k":"v"` pairs separated by commas up to the closing brace.
The fuel argument bounds the recursion by the input length. -/
def parsePairsAux : Nat → List Char → Option (List (String × String) × List Char)
  | 0, _ => none
  | fuel + 1, cs =>
    match parseStringLit cs with
    | none => none
    | some (k, cs₁) =>
      match cs₁ with
      | ':' :: cs₂ =>
        match parseStringLit cs₂ with
        | none => none
        | some (v, cs₃) =>
          match cs₃ with
          | ',' :: cs₄ => (parsePairsAux fuel cs₄).map (fun pr => ((k, v) :: pr.1, pr.2))
          | '\x7d' :: cs₄ => some ([(k, v)], cs₄)
          | _ => none
      | _ => none

/-- Parser for flat string-valued JSON objects; a witness that a string is
well-formed structured data. -/
def jsonObjParse (s : String) : Option JsonObj :=
  match s.data with
  | '\x7b' :: '\x7d' :: [] => some ⟨[]⟩
  | '\x7b' :: rest =>
    match parsePairsAux rest.length rest with
    | some (ps, []) => some ⟨ps⟩
    | _ => none
  | _ => none

/-- The `switch (kind.content)` of `generateExampleJson`: a total function
of the record's `content` string. -/
def contentFor (c : String) : String :=
  if c = "json" then JsonObj.stringify ⟨[("json", "text")]⟩
  else if c = "free" then "<some-text>"
  else if c = "empty" then "<empty>"
  else "<some-text>"

/-- Whether the switch body calls `Math.random()` for one field: only a
constrained field with a non-empty `either` list does. -/
def usesDraw (t : String) (e : Option (List String)) : Bool :=
  t = "constrained" && decide (0 < (e.getD []).length)

/-- The value one iteration of the `while (nextDef)` loop pushes, if any:
the `switch (nextDef.type)` with its default arm.  `draw` is the random
index used when the field is constrained with a non-empty `either` list
(the source draws `Math.floor(Math.random() * length)`, modelled as an
arbitrary natural taken modulo the length).  A constrained field with an
empty or absent `either` pushes nothing. -/
def fieldValue (t : String) (e : Option (List String)) (draw : Nat) : Option String :=
  if t = "id" then some "<32-bytes-lowercase-hex-event-id>"
  else if t = "pubkey" then some "<32-bytes-lowercase-hex-pubkey>"
  else if t = "relay" then some "wss://relay.tld"
  else if t = "url" then some "https://website.tld/path"
  else if t = "free" then some "<some-value>"
  else if t = "addr" then some "<stringified-kind-number>:<lowercase-hex-pubkey>:<d-tag>"
  else if t = "constrained" then
    match e with
    | some es => if 0 < es.length then some (es.getD (draw % es.length) "") else none
    | none => none
  else if t = "kind" then some "<stringified-kind-number>"
  else some "<some-value>"

/-- The `while (nextDef)` loop over one (finite) tag chain: the list of
pushed values, together with the random draws not yet consumed (the stream
of `Math.random()` results is shared by the whole event). -/
def walkChain : FieldChain → List Nat → List String × List Nat
  | .nil, draws => ([], draws)
  | .field t e nxt, draws =>
    let rest := if usesDraw t e then draws.tail else draws
    let tailResult := walkChain nxt rest
    match fieldValue t e (draws.headD 0) with
    | some v => (v :: tailResult.1, tailResult.2)
    | none => tailResult

/-- The `for (const tagDef of kind.tags)` loop: one array per tag whose
discriminator `name || prefix` is truthy, in declaration order, threading
the random-draw stream through. -/
def synthTags : List TagSpec → List Nat → List (List String)
  | [], _ => []
  | t :: rest, draws =>
    if tagName t = "" then synthTags rest draws
    else
      let walked := walkChain t.next draws
      (tagName t :: walked.1) :: synthTags rest walked.2

/-- The synthesized event value (the source serializes it with
`JSON.stringify(event, null, 2)` just before returning; the claims are
about the event's fields, so the embedding stops at the value). -/
structure Event where
  id : String
  pubkey : String
  created_at : Int
  kind : Option Int
  tags : List (List String)
  content : String
  sig : String
deriving DecidableEq

/-- `generateExampleJson`: builds the event record.  `now` models
`Math.floor(Date.now() / 1000)` at call time and `draws` the stream of
`Math.random()` results.  The source initializes `tags: []` and
`content: ""` and then mutates both; this record literal is the final
state.  The guard `kind.tags && kind.tags.length > 0` only skips the loop
when the tag list is empty, which is what `synthTags` returns on `[]`. -/
def generateExampleJson (kind : KindRecord) (now : Int) (draws : List Nat) : Event :=
  { id := "<32-bytes lowercase hex>"
  , pubkey := "<32-bytes lowercase hex>"
  , created_at := now
  , kind := kind.number
  , tags := synthTags kind.tags draws
  , content := contentFor kind.content
  , sig := "<64-bytes-lowercase-hex>" }

/-- Pointer-graph view of a field chain, for analysing the
`while (nextDef)` loop on a *possibly cyclic* `next` reference graph
(which the inductive `FieldChain` cannot represent): nodes live in a heap
addressed by index and `next` is an optional index. -/
structure FieldNode where
  type : String
  either : Option (List String)
  next : Option Nat
deriving DecidableEq

/-- Fuel-indexed run of `while (nextDef) { ...; nextDef = nextDef.next }`
over the pointer graph: `some` of the pushed values when the loop exits
(the `next` reference is absent or dangling) within `fuel` iterations,
`none` when the fuel runs out with the loop still running.  The loop's
control flow never depends on the random draws, so the constrained arm is
evaluated at draw 0. -/
def runLoop (heap : List FieldNode) : Nat → Option Nat → List String → Option (List String)
  | _, none, acc => some acc.reverse
  | 0, some _, _ => none
  | fuel + 1, some p, acc =>
    match heap.get? p with
    | none => some acc.reverse
    | some nd =>
      let acc' := match fieldValue nd.type nd.either 0 with
        | some v => v :: acc
        | none => acc
      runLoop heap fuel nd.next acc'

/-- The number of chain fields that produce a value, as §4.2 of the spec
counts them: every field type produces one value except a constrained
field whose `either` set is empty or absent, which produces none. -/
def producingCount : FieldChain → Nat
  | .nil => 0
  | .field t e nxt =>
    (if t = "constrained" ∧ (e.getD []).length = 0 then 0 else 1) + producingCount nxt

/-- Modelled from the spec wording of §4.3 (for comparison with the code's
`kindMatches`): the lower-cased query matched against the decimal string
of `number`, the lower-cased `description`, or the concatenation of all
tag *discriminators* (`name` if present, else `prefix`). -/
def specSearchMatches (term : String) (k : KindRecord) : Bool :=
  jsIncludes (numberToString k.number) term ||
  jsIncludes (jsToLowerCase k.description) term ||
  jsIncludes (String.join (k.tags.map (fun t => tagName t))) term

/-! ## Helper lemmas -/

theorem jsIncludes_empty (s : String) : jsIncludes s "" = true := by
  simp [jsIncludes]

theorem kindMatches_empty (k : KindRecord) : kindMatches "" k = true := by
  simp [kindMatches, jsIncludes_empty]

theorem buildKindsList_eq (raw : List (String × RawValue)) :
    buildKindsList raw =
      (raw.filter (fun kv => !(jsStartsWith kv.1 "_"))).map (fun kv => mkRecord kv.1 kv.2) := by
  induction raw with
  | nil => rfl
  | cons kv rest ih =>
    by_cases h : jsStartsWith kv.1 "_" <;>
      simp [buildKindsList, h, ih, List.filter_cons]

theorem recLe_trans (a b c : KindRecord) :
    recLe a b → recLe b c → recLe a c := by
  rcases a with ⟨na, _, _, _⟩
  rcases b with ⟨nb, _, _, _⟩
  rcases c with ⟨nc, _, _, _⟩
  rcases na with _ | x <;> rcases nb with _ | y <;> rcases nc with _ | z <;>
    simp [recLe] <;> omega

theorem recLe_total (a b : KindRecord) : recLe a b || recLe b a := by
  rcases a with ⟨na, _, _, _⟩
  rcases b with ⟨nb, _, _, _⟩
  rcases na with _ | x <;> rcases nb with _ | y <;> simp [recLe] <;> omega

theorem fieldValue_eq_none_iff (t : String) (e : Option (List String)) (d : Nat) :
    fieldValue t e d = none ↔ t = "constrained" ∧ (e.getD []).length = 0 := by
  by_cases hc : t = "constrained"
  · subst hc
    rcases e with _ | es
    · simp [fieldValue]
    · rcases es with _ | ⟨x, xs⟩ <;> simp [fieldValue]
  · unfold fieldValue
    split_ifs <;> simp_all

theorem walkChain_length (c : FieldChain) :
    ∀ draws, (walkChain c draws).1.length = producingCount c := by
  induction c with
  | nil => intro draws; rfl
  | field t e nxt ih =>
    intro draws
    rw [producingCount]
    by_cases hc : t = "constrained" ∧ (e.getD []).length = 0
    · have hv : fieldValue t e (draws.headD 0) = none :=
        (fieldValue_eq_none_iff t e (draws.headD 0)).mpr hc
      simp only [walkChain, hv]
      simp [hc, ih]
    · have hv : fieldValue t e (draws.headD 0) ≠ none := by
        rw [Ne, fieldValue_eq_none_iff]
        exact hc
      obtain ⟨v, hv⟩ := Option.ne_none_iff_exists'.mp hv
      simp only [walkChain, hv]
      have hc' : ¬(t = "constrained" ∧ e.getD [] = []) := by
        simpa [List.length_eq_zero] using hc
      simp [hc', ih, Nat.add_comm]

theorem synthTags_heads (specs : List TagSpec) :
    ∀ draws, (synthTags specs draws).map (fun a => a.head?) =
      (specs.filter (fun t => !(tagName t == ""))).map (fun t => some (tagName t)) := by
  induction specs with
  | nil => intro draws; rfl
  | cons t rest ih =>
    intro draws
    by_cases h : tagName t = "" <;>
      simp [synthTags, h, List.filter_cons, ih]

theorem synthTags_lengths (specs : List TagSpec) :
    ∀ draws, (synthTags specs draws).map List.length =
      (specs.filter (fun t => !(tagName t == ""))).map (fun t => 1 + producingCount t.next) := by
  induction specs with
  | nil => intro draws; rfl
  | cons t rest ih =>
    intro draws
    by_cases h : tagName t = "" <;>
      simp [synthTags, h, List.filter_cons, ih, walkChain_length, Nat.add_comm]

/-! ## Claim theorems -/

/-- C2: on a cyclic `next` chain (a single `free` field node whose `next`
points back to itself) the `while (nextDef)` loop of `generateExampleJson`
never exits: for every iteration bound the fuel-indexed run is still
looping, so synthesis of the tag neither terminates in a bounded number of
steps nor substitutes an error marker — contrary to the claim. -/
theorem cyclic_chain_loop_never_exits :
    ∀ (fuel : Nat) (acc : List String),
      runLoop [⟨"free", none, some 0⟩] fuel (some 0) acc = none := by
  intro fuel
  induction fuel with
  | zero => intro acc; rfl
  | succ n ih =>
    intro acc
    simpa [runLoop, fieldValue] using ih _

/-- C3 (amended): `filteredKinds` returns exactly the filter — in original
order, hence a sublist — of the records matched by the lower-cased query
against the decimal form of `number`, the lower-cased `description`, or
the concatenation of the tags' `name` fields (the `prefix` field is not
consulted and the names are not lower-cased); the empty query returns the
list unchanged. -/
theorem filteredKinds_eq_filter (kinds : List KindRecord) (q : String) :
    filteredKinds kinds q = kinds.filter (kindMatches (jsToLowerCase q)) ∧
    (filteredKinds kinds q).Sublist kinds ∧
    filteredKinds kinds "" = kinds := by
  have h1 : filteredKinds kinds q = kinds.filter (kindMatches (jsToLowerCase q)) := by
    unfold filteredKinds
    by_cases h : jsToLowerCase q = ""
    · rw [if_pos h, h]
      exact (List.filter_eq_self.mpr (fun k _ => kindMatches_empty k)).symm
    · rw [if_neg h]
  refine ⟨h1, ?_, rfl⟩
  rw [h1]
  exact List.filter_sublist kinds

/-- C3 counterexample: a record whose only searchable text is a tag
carrying a `prefix` but no `name`.  The spec's predicate (discriminator =
`name` or else `prefix`) matches the query `"xyz"`, but `filteredKinds`
returns the empty list, because the code joins only the `name` fields. -/
theorem filteredKinds_misses_prefix_only_tag :
    specSearchMatches (jsToLowerCase "xyz")
      ⟨some 1, "d", "unknown", [⟨none, some "xyz", FieldChain.nil⟩]⟩ = true ∧
    filteredKinds [⟨some 1, "d", "unknown", [⟨none, some "xyz", FieldChain.nil⟩]⟩] "xyz"
      = [] := by
  constructor
  · decide
  · decide

/-- C4: matching is insensitive to the letter case of the query: the
filter only ever consults the lower-cased query, so any two queries with
the same lower-casing — in particular any two queries differing only in
letter case, such as "AB" and "ab" — produce the same result list, also
on records whose tag names contain uppercase letters. -/
theorem filteredKinds_case_insensitive (kinds : List KindRecord) (q₁ q₂ : String)
    (h : jsToLowerCase q₁ = jsToLowerCase q₂) :
    filteredKinds kinds q₁ = filteredKinds kinds q₂ := by
  unfold filteredKinds
  rw [h]

/-- Witness for C4 at the concrete queries "AB" and "ab" on a record whose
tag name contains uppercase letters. -/
theorem filteredKinds_case_insensitive_witness :
    jsToLowerCase "AB" = jsToLowerCase "ab" ∧
    filteredKinds [⟨some 1, "d", "unknown", [⟨some "AB", none, FieldChain.nil⟩]⟩] "AB" =
      filteredKinds [⟨some 1, "d", "unknown", [⟨some "AB", none, FieldChain.nil⟩]⟩] "ab" :=
  ⟨by decide, filteredKinds_case_insensitive _ "AB" "ab" (by decide)⟩

/-- C5 (amended): the normalizer loop skips exactly the entries whose key
starts with an underscore; every other entry — also one whose key does
not parse as an integer — produces exactly one record, whose `number` is
whatever `parseInt` returned (`none` standing for `NaN`), and processing
of the remaining entries always continues. -/
theorem normalizer_skip_policy (raw : List (String × RawValue)) :
    buildKindsList raw =
      (raw.filter (fun kv => !(jsStartsWith kv.1 "_"))).map (fun kv => mkRecord kv.1 kv.2) ∧
    (∀ k v, (mkRecord k v).number = jsParseInt k) :=
  ⟨buildKindsList_eq raw, fun _ _ => rfl⟩

/-- C5 counterexample: the key "abc" does not parse as a base-10 integer,
yet its entry is not skipped — the normalized output contains a record
for it (with `NaN` number), refuting "the entry produces no record". -/
theorem nonInteger_key_produces_record :
    normalize [("abc", ⟨none, none, none⟩)] =
      [{ number := none, description := "No description", content := "unknown", tags := [] }] ∧
    normalize [("abc", ⟨none, none, none⟩)] ≠ [] := by
  have h : normalize [("abc", ⟨none, none, none⟩)] =
      [{ number := none, description := "No description", content := "unknown", tags := [] }] := by
    rw [normalize]
    rw [show buildKindsList [("abc", ⟨none, none, none⟩)] =
        [{ number := none, description := "No description", content := "unknown",
           tags := ([] : List TagSpec) }] from by decide]
    exact List.mergeSort_singleton _
  exact ⟨h, by rw [h]; exact List.cons_ne_nil _ _⟩

/-- C9: the normalizer's defaults trigger on falsy values, not only on
absence: an empty-string `description` yields the same record as an
absent one (so "No description"), an empty-string `content` the same as
an absent one (so "unknown"), and a null/absent `tags` yields the empty
sequence. -/
theorem falsy_field_defaults (k : String) (d c : Option String)
    (t : Option (List TagSpec)) :
    mkRecord k ⟨some "", c, t⟩ = mkRecord k ⟨none, c, t⟩ ∧
    (mkRecord k ⟨some "", c, t⟩).description = "No description" ∧
    mkRecord k ⟨d, some "", t⟩ = mkRecord k ⟨d, none, t⟩ ∧
    (mkRecord k ⟨d, some "", t⟩).content = "unknown" ∧
    (mkRecord k ⟨d, c, none⟩).tags = [] := by
  refine ⟨?_, rfl, ?_, rfl, rfl⟩ <;> rfl

/-- C6: a `TagSpec` with a (truthy) discriminator synthesizes exactly one
array — the discriminator followed by the chain values — whose length is
1 plus the number of chain fields that produce a value, where every field
type produces one value except a constrained field with an empty or
absent `either` set; the count is independent of the random draws. -/
theorem synthTag_length (t : TagSpec) (draws : List Nat) (h : tagName t ≠ "") :
    synthTags [t] draws = [tagName t :: (walkChain t.next draws).1] ∧
    (tagName t :: (walkChain t.next draws).1).length = 1 + producingCount t.next := by
  constructor
  · simp [synthTags, h]
  · simp [walkChain_length, Nat.add_comm]

/-- Witness for C6: the chain `relay -> constrained{either:["a","b"]} -> free`
yields exactly 4 elements, and a `TagSpec` with no `next` yields exactly 1. -/
theorem synthTag_length_witness :
    (tagName ⟨some "e", none,
        FieldChain.field "relay" none (FieldChain.field "constrained" (some ["a", "b"])
          (FieldChain.field "free" none FieldChain.nil))⟩ ≠ "") ∧
    (synthTags [⟨some "e", none,
        FieldChain.field "relay" none (FieldChain.field "constrained" (some ["a", "b"])
          (FieldChain.field "free" none FieldChain.nil))⟩] [0] =
      [tagName ⟨some "e", none,
          FieldChain.field "relay" none (FieldChain.field "constrained" (some ["a", "b"])
            (FieldChain.field "free" none FieldChain.nil))⟩ ::
        (walkChain (FieldChain.field "relay" none (FieldChain.field "constrained" (some ["a", "b"])
          (FieldChain.field "free" none FieldChain.nil))) [0]).1] ∧
     (tagName ⟨some "e", none,
          FieldChain.field "relay" none (FieldChain.field "constrained" (some ["a", "b"])
            (FieldChain.field "free" none FieldChain.nil))⟩ ::
        (walkChain (FieldChain.field "relay" none (FieldChain.field "constrained" (some ["a", "b"])
          (FieldChain.field "free" none FieldChain.nil))) [0]).1).length =
       1 + producingCount (FieldChain.field "relay" none
         (FieldChain.field "constrained" (some ["a", "b"])
           (FieldChain.field "free" none FieldChain.nil)))) ∧
    1 + producingCount (FieldChain.field "relay" none
      (FieldChain.field "constrained" (some ["a", "b"])
        (FieldChain.field "free" none FieldChain.nil))) = 4 ∧
    synthTags [⟨some "solo", none, FieldChain.nil⟩] [] = [["solo"]] :=
  ⟨by decide, synthTag_length _ [0] (by decide), by decide, by decide⟩

/-- C7: the synthesized `content` is a total function of the record's
`content` value: `json` maps to `JSON.stringify({json:"text"})`, which the
flat-object JSON parser accepts as structured data; `free` and `empty` map
to their placeholders; and every other value maps to the same placeholder
as `free` — never an error. -/
theorem content_total_function (r : KindRecord) (now : Int) (draws : List Nat) :
    (generateExampleJson r now draws).content = contentFor r.content ∧
    contentFor "json" = JsonObj.stringify ⟨[("json", "text")]⟩ ∧
    jsonObjParse (contentFor "json") = some ⟨[("json", "text")]⟩ ∧
    contentFor "free" = "<some-text>" ∧
    contentFor "empty" = "<empty>" ∧
    (∀ c, c ≠ "json" → c ≠ "free" → c ≠ "empty" → contentFor c = contentFor "free") := by
  refine ⟨rfl, rfl, by decide, rfl, rfl, ?_⟩
  intro c h1 h2 h3
  simp [contentFor, h1, h2, h3]

/-- Witness for C7 at a `json` record and at the unrecognized content
value "markdown". -/
theorem content_total_function_witness :
    (generateExampleJson ⟨some 1, "d", "json", []⟩ 0 []).content = contentFor "json" ∧
    contentFor "markdown" = contentFor "free" :=
  ⟨(content_total_function ⟨some 1, "d", "json", []⟩ 0 []).1,
   (content_total_function ⟨some 1, "d", "json", []⟩ 0 []).2.2.2.2.2 "markdown"
     (by decide) (by decide) (by decide)⟩

/-- C10: the synthesized event carries exactly one tag array per `TagSpec`
with a truthy discriminator, in declaration order, each headed by that
discriminator; a spec whose `name` and `prefix` are both absent or empty
emits nothing; and when a non-empty `name` is present it wins over
`prefix`. -/
theorem tags_one_per_named_spec (r : KindRecord) (now : Int) (draws : List Nat) :
    (generateExampleJson r now draws).tags.map (fun a => a.head?) =
      (r.tags.filter (fun t => !(tagName t == ""))).map (fun t => some (tagName t)) ∧
    (∀ t : TagSpec, tagName t = "" → ∀ ds, synthTags [t] ds = []) ∧
    (∀ (n : String) (p : Option String) (c : FieldChain),
      n ≠ "" → tagName ⟨some n, p, c⟩ = n) := by
  refine ⟨synthTags_heads r.tags draws, ?_, ?_⟩
  · intro t h ds
    simp [synthTags, h]
  · intro n p c h
    simp [tagName, jsOrString, h]

/-- Witness for C10: a record with one named, one nameless and one
prefix-only tag spec keeps exactly the two truthy discriminators in
order; a spec with both fields empty emits nothing; `name` wins over
`prefix` on a concrete spec carrying both. -/
theorem tags_one_per_named_spec_witness :
    (generateExampleJson
        ⟨some 1, "d", "unknown",
          [⟨some "e", none, FieldChain.nil⟩, ⟨none, none, FieldChain.nil⟩,
           ⟨none, some "p", FieldChain.nil⟩]⟩ 0 []).tags.map (fun a => a.head?) =
      (([⟨some "e", none, FieldChain.nil⟩, ⟨none, none, FieldChain.nil⟩,
         ⟨none, some "p", FieldChain.nil⟩] : List TagSpec).filter
           (fun t => !(tagName t == ""))).map (fun t => some (tagName t)) ∧
    synthTags [⟨some "", some "", FieldChain.nil⟩] [] = [] ∧
    tagName ⟨some "n", some "p", FieldChain.nil⟩ = "n" :=
  ⟨(tags_one_per_named_spec ⟨some 1, "d", "unknown",
      [⟨some "e", none, FieldChain.nil⟩, ⟨none, none, FieldChain.nil⟩,
       ⟨none, some "p", FieldChain.nil⟩]⟩ 0 []).1,
   (tags_one_per_named_spec ⟨some 1, "d", "unknown", []⟩ 0 []).2.1
     ⟨some "", some "", FieldChain.nil⟩ (by decide) [],
   (tags_one_per_named_spec ⟨some 1, "d", "unknown", []⟩ 0 []).2.2 "n" (some "p")
     FieldChain.nil (by decide)⟩

/-- C1 (amended): synthesis is deterministic only given the clock reading
and the stream of random draws.  Across two calls with arbitrary clock
readings and draws, the `id`, `pubkey`, `sig`, `kind` and `content`
fields and the tag structure (how many tags, their discriminators, their
lengths) agree and depend only on the record; `created_at` equals each
call's own clock reading, and only the values of constrained fields
depend on the draws. -/
theorem synthesis_deterministic_modulo_time_and_draws (r : KindRecord)
    (t₁ t₂ : Int) (d₁ d₂ : List Nat) :
    (generateExampleJson r t₁ d₁).id = (generateExampleJson r t₂ d₂).id ∧
    (generateExampleJson r t₁ d₁).pubkey = (generateExampleJson r t₂ d₂).pubkey ∧
    (generateExampleJson r t₁ d₁).sig = (generateExampleJson r t₂ d₂).sig ∧
    (generateExampleJson r t₁ d₁).kind = (generateExampleJson r t₂ d₂).kind ∧
    (generateExampleJson r t₁ d₁).content = (generateExampleJson r t₂ d₂).content ∧
    (generateExampleJson r t₁ d₁).created_at = t₁ ∧
    (generateExampleJson r t₁ d₁).tags.map (fun a => a.head?) =
      (generateExampleJson r t₂ d₂).tags.map (fun a => a.head?) ∧
    (generateExampleJson r t₁ d₁).tags.map List.length =
      (generateExampleJson r t₂ d₂).tags.map List.length := by
  refine ⟨rfl, rfl, rfl, rfl, rfl, rfl, ?_, ?_⟩
  · rw [show (generateExampleJson r t₁ d₁).tags = synthTags r.tags d₁ from rfl,
        show (generateExampleJson r t₂ d₂).tags = synthTags r.tags d₂ from rfl,
        synthTags_heads r.tags d₁, synthTags_heads r.tags d₂]
  · rw [show (generateExampleJson r t₁ d₁).tags = synthTags r.tags d₁ from rfl,
        show (generateExampleJson r t₂ d₂).tags = synthTags r.tags d₂ from rfl,
        synthTags_lengths r.tags d₁, synthTags_lengths r.tags d₂]

/-- C1 counterexample: on a record with a constrained field `{either:
["a","b"]}`, two calls drawing different random values produce different
events, and two calls at different clock seconds produce different
events — `generateExampleJson` is not deterministic as claimed. -/
theorem synthesis_not_deterministic :
    generateExampleJson
        ⟨some 5, "d", "json", [⟨some "t", none,
          FieldChain.field "constrained" (some ["a", "b"]) FieldChain.nil⟩]⟩ 0 [0] ≠
      generateExampleJson
        ⟨some 5, "d", "json", [⟨some "t", none,
          FieldChain.field "constrained" (some ["a", "b"]) FieldChain.nil⟩]⟩ 0 [1] ∧
    generateExampleJson
        ⟨some 5, "d", "json", [⟨some "t", none,
          FieldChain.field "constrained" (some ["a", "b"]) FieldChain.nil⟩]⟩ 0 [0] ≠
      generateExampleJson
        ⟨some 5, "d", "json", [⟨some "t", none,
          FieldChain.field "constrained" (some ["a", "b"]) FieldChain.nil⟩]⟩ 1 [0] := by
  constructor
  · decide
  · decide

/-- C8 (amended): when every kept key parses as an integer, the normalized
output is sorted non-decreasingly by `number`; the numbers need not be
unique, because two distinct keys can parse to the same integer. -/
theorem normalize_sorted_by_number (raw : List (String × RawValue))
    (h : ∀ kv ∈ raw, jsStartsWith kv.1 "_" = false → (jsParseInt kv.1).isSome = true) :
    ((normalize raw).map (fun r => r.number.getD 0)).Pairwise (· ≤ ·) := by
  have hsome : ∀ r ∈ normalize raw, r.number.isSome = true := by
    intro r hr
    rw [normalize, List.mem_mergeSort, buildKindsList_eq] at hr
    simp only [List.mem_map, List.mem_filter] at hr
    obtain ⟨kv, ⟨hmem, hunder⟩, rfl⟩ := hr
    exact h kv hmem (by simpa using hunder)
  have hp := List.sorted_mergeSort recLe_trans recLe_total (buildKindsList raw)
  rw [List.pairwise_map]
  refine List.Pairwise.imp_of_mem ?_ hp
  intro a b ha hb hle
  obtain ⟨x, hx⟩ := Option.isSome_iff_exists.mp (hsome a ha)
  obtain ⟨y, hy⟩ := Option.isSome_iff_exists.mp (hsome b hb)
  rw [hx, hy]
  simp only [Option.getD_some]
  simpa [recLe, hx, hy] using hle

/-- Witness for C8 on the concrete mapping with keys "2" and "1". -/
theorem normalize_sorted_by_number_witness :
    (∀ kv ∈ [("2", (⟨none, none, none⟩ : RawValue)), ("1", ⟨none, none, none⟩)],
        jsStartsWith kv.1 "_" = false → (jsParseInt kv.1).isSome = true) ∧
    ((normalize [("2", ⟨none, none, none⟩), ("1", ⟨none, none, none⟩)]).map
        (fun r => r.number.getD 0)).Pairwise (· ≤ ·) :=
  ⟨by decide, normalize_sorted_by_number _ (by decide)⟩

/-- C8 counterexample: the distinct keys "1" and "01" both parse to the
kind number 1, so the normalized list contains two records with the same
`number` value — the claimed uniqueness invariant fails. -/
theorem normalize_duplicate_numbers :
    ¬ ((normalize [("1", ⟨none, none, none⟩), ("01", ⟨none, none, none⟩)]).Pairwise
        (fun a b => a.number ≠ b.number)) := by
  intro hpw
  have hperm := List.mergeSort_perm
    (buildKindsList [("1", ⟨none, none, none⟩), ("01", ⟨none, none, none⟩)]) recLe
  have h2 := (hperm.pairwise_iff (fun h => Ne.symm h)).mp hpw
  revert h2
  decide

end KindRegistry
